import Mathlib

/-!
Shallow embedding of `src/option_pricing/option_lib.py`: the option contract
fields shared by both engines, the American binomial-lattice pricer
(`forward`, `backward`, `price`, `delta`, `vega`) and the European Monte Carlo
pricer. Python floats are modelled as real numbers; the Python lists of the
lattices are modelled as Lean lists, with `getD`-indexing (every index the
source actually reads is in range, which the theorems make explicit).
-/

namespace OptionLib

/-- Closed enumeration of option kinds, embedding `OptionType` (`enum.Enum`
with members `CALL` and `PUT`). -/
inductive OptionType where
  | CALL : OptionType
  | PUT : OptionType
  deriving DecidableEq

/-- Fields stored by `Option.__init__`, shared by both engines. The Python
`steps` is an `int`; the claims only concern `steps >= 1`, so it is modelled
as a natural number. -/
structure OptionContract where
  option_type : OptionType
  current_stock_price : ℝ
  strike_price : ℝ
  interest : ℝ
  volatility : ℝ
  dividend_yield : ℝ
  steps : ℕ

/-- Embedding of `Option._payoff`: the intrinsic payoff at a stock price,
`max(0, S - K)` for a call and `max(0, K - S)` for a put. -/
noncomputable def payoff (c : OptionContract) (stock_price : ℝ) : ℝ :=
  match c.option_type with
  | OptionType.CALL => max 0 (stock_price - c.strike_price)
  | OptionType.PUT => max 0 (c.strike_price - stock_price)

/-- Embedding of `Option._payoff` keeping the Python dynamics visible: the
stored `option_type` may be any object (a value outside the enumeration, such
as Python `None`, is modelled by `Option.none`), the `if`/`elif` chain has no
`else` branch, and falling off the end of the function makes Python return
`None` implicitly, modelled by the result `Option.none`. -/
noncomputable def payoffDyn (option_type : Option OptionType)
    (strike_price stock_price : ℝ) : Option ℝ :=
  if option_type = some OptionType.CALL then
    some (max 0 (stock_price - strike_price))
  else if option_type = some OptionType.PUT then
    some (max 0 (strike_price - stock_price))
  else
    none

/-- Embedding of `AmericanOption.__init__` (which only calls
`Option.__init__`): no parameter is validated, the constructor always returns
normally, storing whatever values it was given (the two caches start empty
and play no role in the pure embedding). -/
def mkAmericanOption (option_type : OptionType)
    (current_stock_price strike_price interest volatility dividend_yield : ℝ)
    (steps : ℕ) : OptionContract :=
  { option_type := option_type
    current_stock_price := current_stock_price
    strike_price := strike_price
    interest := interest
    volatility := volatility
    dividend_yield := dividend_yield
    steps := steps }

/-- Embedding of `AmericanOption._compound`:
`exp((interest - dividend_yield) * (1 / steps))`. -/
noncomputable def compound (c : OptionContract) : ℝ :=
  Real.exp ((c.interest - c.dividend_yield) * (1 / (c.steps : ℝ)))

/-- Embedding of `AmericanOption._uncertainty`:
`exp(volatility * sqrt(1 / steps))`. -/
noncomputable def uncertainty (c : OptionContract) : ℝ :=
  Real.exp (c.volatility * Real.sqrt (1 / (c.steps : ℝ)))

/-- Embedding of `AmericanOption._american_payoff`: the early-exercise
comparison at one lattice node. -/
noncomputable def americanPayoff (c : OptionContract)
    (stock_price up_state_price down_state_price : ℝ) : ℝ :=
  let u := compound c * uncertainty c
  let d := compound c / uncertainty c
  let p := (compound c - d) / (u - d)
  let hold_payoff := Real.exp (-c.interest * (1 / (c.steps : ℝ))) *
    (p * up_state_price + (1 - p) * down_state_price)
  let exercise_payoff := payoff c stock_price
  max hold_payoff exercise_payoff

/-- One iteration of the inner loop of `AmericanOption.forward`: for every
node of a level, append the up child `node * compound * uncertainty` first and
the down child `node * compound / uncertainty` second. -/
noncomputable def nextLevel (c : OptionContract) (level : List ℝ) : List ℝ :=
  level.flatMap (fun previous_node =>
    [previous_node * compound c * uncertainty c,
     previous_node * compound c / uncertainty c])

/-- Level `i` of the forward stock-price tree: `i` applications of `nextLevel`
to the root level `[current_stock_price]`. -/
noncomputable def priceLevel (c : OptionContract) (i : ℕ) : List ℝ :=
  (nextLevel c)^[i] [c.current_stock_price]

/-- Number of levels `AmericanOption.forward` builds: the root level plus one
level per iteration of `for i in range(self.steps - 1)` (truncated natural
subtraction matches Python `range` clamping negative bounds at zero). -/
def numLevels (c : OptionContract) : ℕ :=
  1 + (c.steps - 1)

/-- Embedding of `AmericanOption.forward`: the binomial tree of stock prices,
level by level. -/
noncomputable def forward (c : OptionContract) : List (List ℝ) :=
  (List.range (numLevels c)).map (priceLevel c)

/-- One level of the backward-induction loop of `AmericanOption.backward`:
for `j in range(len(price_tree[i]))`, combine `price_tree[i][j]` with the
payoffs of its two children at positions `2*j` and `2*j + 1` of the level
below. -/
noncomputable def backStep (c : OptionContract) (prices next_level : List ℝ) :
    List ℝ :=
  (List.range prices.length).map (fun j =>
    americanPayoff c (prices.getD j 0) (next_level.getD (2 * j) 0)
      (next_level.getD (2 * j + 1) 0))

/-- Payoff-tree level at distance `k` from the leaves: `k = 0` is the leaf
level, `price_tree[-1]` mapped through `_payoff`; each further step applies
the body of the backward loop once, reading the stock prices of the level
being filled. -/
noncomputable def backLevel (c : OptionContract)
    (price_tree : List (List ℝ)) : ℕ → List ℝ
  | 0 => (price_tree.getD (price_tree.length - 1) []).map (payoff c)
  | k + 1 =>
      backStep c (price_tree.getD (price_tree.length - 1 - (k + 1)) [])
        (backLevel c price_tree k)

/-- Embedding of `AmericanOption.backward`: the payoff tree has as many levels
as the price tree, level `i` being at distance `len - 1 - i` from the leaves
(on the tree built by `forward`, the source's loop bound `steps - 2` coincides
with `len(price_tree) - 2`). -/
noncomputable def backward (c : OptionContract)
    (price_tree : List (List ℝ)) : List (List ℝ) :=
  (List.range price_tree.length).map (fun i =>
    backLevel c price_tree (price_tree.length - 1 - i))

/-- Embedding of `AmericanOption.price`: `payoff_tree[0][0]`. -/
noncomputable def price (c : OptionContract) : ℝ :=
  ((backward c (forward c)).getD 0 []).getD 0 0

/-- Embedding of `AmericanOption.delta`. -/
noncomputable def delta (c : OptionContract) : ℝ :=
  let payoff_tree := backward c (forward c)
  let c_u := (payoff_tree.getD 1 []).getD 0 0
  let c_d := (payoff_tree.getD 1 []).getD 1 0
  let s_u := c.current_stock_price * compound c * uncertainty c
  let s_d := c.current_stock_price * compound c / uncertainty c
  (c_u - c_d) / (s_u - s_d)

/-- Embedding of `AmericanOption.vega`: price a freshly constructed engine
whose only changed parameter is `volatility * (1 + delta_sigma)` and divide
the price difference by `delta_sigma`. -/
noncomputable def vega (c : OptionContract) (delta_sigma : ℝ) : ℝ :=
  let original_price := price c
  let sim_option : OptionContract :=
    { option_type := c.option_type
      current_stock_price := c.current_stock_price
      strike_price := c.strike_price
      interest := c.interest
      volatility := c.volatility * (1 + delta_sigma)
      dividend_yield := c.dividend_yield
      steps := c.steps }
  let sim_price := price sim_option
  (sim_price - original_price) / delta_sigma

/-- Fields stored by `EuropeanOption.__init__`: the shared contract fields
plus `time_period` (for this engine `steps` counts Monte Carlo paths). -/
structure EuropeanOption extends OptionContract where
  time_period : ℝ

/-- Embedding of `EuropeanOption._calculate_stock_price`. -/
noncomputable def calculateStockPrice (e : EuropeanOption) (epsilon : ℝ) : ℝ :=
  Real.exp ((e.interest - e.dividend_yield - 1 / 2 * e.volatility ^ 2) *
        e.time_period +
      epsilon * e.volatility * Real.sqrt e.time_period) *
    e.current_stock_price

/-- Embedding of `EuropeanOption._discount`. -/
noncomputable def discount (e : EuropeanOption) (asset_price : ℝ) : ℝ :=
  Real.exp (-e.interest * e.time_period) * asset_price

/-- Embedding of `EuropeanOption.price`: the Monte Carlo loop, with the
sequence of standard-normal draws produced by `random.gauss(mu=0, sigma=1)`
supplied explicitly as `eps` (iteration `i` consumes draw `eps i`). -/
noncomputable def europeanPrice (e : EuropeanOption) (eps : ℕ → ℝ) : ℝ :=
  (((List.range e.steps).map (fun i =>
      payoff e.toOptionContract
        (discount e (calculateStockPrice e (eps i))))).sum) / (e.steps : ℝ)

/-- Modelled from the spec: the per-step compound factor written with the
spec's time increment `h = expiryYears / steps`. The source's lattice engine
takes no expiry parameter, so this definition follows the spec's formula
`compound() = exp((riskFreeRate - dividendYield) * h)` literally. -/
noncomputable def compoundSpec (riskFreeRate dividendYield expiryYears : ℝ)
    (steps : ℕ) : ℝ :=
  Real.exp ((riskFreeRate - dividendYield) * (expiryYears / (steps : ℝ)))

/-- Modelled from the spec: `uncertainty() = exp(volatility * sqrt(h))` with
`h = expiryYears / steps`. -/
noncomputable def uncertaintySpec (volatility expiryYears : ℝ) (steps : ℕ) :
    ℝ :=
  Real.exp (volatility * Real.sqrt (expiryYears / (steps : ℝ)))

/-- Modelled from the spec: the backward-induction discount factor
`exp(-riskFreeRate * h)` with `h = expiryYears / steps`. -/
noncomputable def discountSpec (riskFreeRate expiryYears : ℝ) (steps : ℕ) :
    ℝ :=
  Real.exp (-riskFreeRate * (expiryYears / (steps : ℝ)))

/-- Concrete contract used by the witnesses (the spec's concrete scenario,
with the rates written as rationals). -/
noncomputable def testContract : OptionContract :=
  { option_type := OptionType.CALL
    current_stock_price := 20
    strike_price := 21
    interest := 298 / 10000
    volatility := 35 / 100
    dividend_yield := 15 / 1000
    steps := 10 }

/-! Helper lemmas about list indexing and the lattice levels. -/

lemma range_map_getD {α : Type} (f : ℕ → α) (n i : ℕ) (d : α) (h : i < n) :
    ((List.range n).map f).getD i d = f i := by
  rw [List.getD_eq_getElem _ _ (by simpa using h)]
  simp

lemma map_getD {α β : Type} (f : α → β) (l : List α) (j : ℕ)
    (h : j < l.length) (d : β) (e : α) :
    (l.map f).getD j d = f (l.getD j e) := by
  rw [List.getD_eq_getElem _ _ (by simpa using h), List.getD_eq_getElem _ _ h]
  simp

lemma getD_nonneg (l : List ℝ) (h : ∀ x ∈ l, 0 ≤ x) (j : ℕ) :
    0 ≤ l.getD j 0 := by
  by_cases hj : j < l.length
  · rw [List.getD_eq_getElem _ _ hj]
    exact h _ (List.getElem_mem hj)
  · rw [List.getD_eq_default _ _ (by omega)]

lemma list_range_map_sum {M : Type} [AddCommMonoid M] (f : ℕ → M) (n : ℕ) :
    ((List.range n).map f).sum = ∑ i ∈ Finset.range n, f i := by
  induction n with
  | zero => simp
  | succ n ih =>
      rw [List.range_succ, List.map_append, List.sum_append,
        Finset.sum_range_succ, ih]
      simp

lemma nextLevel_nil (c : OptionContract) : nextLevel c [] = [] := rfl

lemma nextLevel_cons (c : OptionContract) (a : ℝ) (t : List ℝ) :
    nextLevel c (a :: t) =
      a * compound c * uncertainty c :: a * compound c / uncertainty c ::
        nextLevel c t := by
  simp [nextLevel]

lemma nextLevel_length (c : OptionContract) (l : List ℝ) :
    (nextLevel c l).length = 2 * l.length := by
  induction l with
  | nil => simp [nextLevel]
  | cons a t ih =>
      rw [nextLevel_cons]
      simp only [List.length_cons, ih]
      omega

lemma nextLevel_getD_up (c : OptionContract) (l : List ℝ) (j : ℕ)
    (h : j < l.length) :
    (nextLevel c l).getD (2 * j) 0 =
      l.getD j 0 * compound c * uncertainty c := by
  induction l generalizing j with
  | nil => simp at h
  | cons a t ih =>
      cases j with
      | zero => rw [nextLevel_cons]; simp
      | succ j =>
          have h2 : 2 * (j + 1) = 2 * j + 1 + 1 := by ring
          rw [nextLevel_cons, h2, List.getD_cons_succ, List.getD_cons_succ]
          exact ih j (by simpa using h)

lemma nextLevel_getD_down (c : OptionContract) (l : List ℝ) (j : ℕ)
    (h : j < l.length) :
    (nextLevel c l).getD (2 * j + 1) 0 =
      l.getD j 0 * compound c / uncertainty c := by
  induction l generalizing j with
  | nil => simp at h
  | cons a t ih =>
      cases j with
      | zero => rw [nextLevel_cons]; simp
      | succ j =>
          have h2 : 2 * (j + 1) + 1 = 2 * j + 1 + 1 + 1 := by ring
          rw [nextLevel_cons, h2, List.getD_cons_succ, List.getD_cons_succ]
          exact ih j (by simpa using h)

lemma priceLevel_zero (c : OptionContract) :
    priceLevel c 0 = [c.current_stock_price] := rfl

lemma priceLevel_succ (c : OptionContract) (i : ℕ) :
    priceLevel c (i + 1) = nextLevel c (priceLevel c i) :=
  Function.iterate_succ_apply' (nextLevel c) i _

lemma priceLevel_length (c : OptionContract) (i : ℕ) :
    (priceLevel c i).length = 2 ^ i := by
  induction i with
  | zero => simp [priceLevel]
  | succ i ih =>
      rw [priceLevel_succ, nextLevel_length, ih, pow_succ]
      ring

lemma forward_length (c : OptionContract) :
    (forward c).length = numLevels c := by
  simp [forward]

lemma forward_getD (c : OptionContract) (i : ℕ) (h : i < numLevels c) :
    (forward c).getD i [] = priceLevel c i :=
  range_map_getD _ _ _ _ h

lemma numLevels_eq (c : OptionContract) (h : 1 ≤ c.steps) :
    numLevels c = c.steps := by
  unfold numLevels
  omega

lemma backLevel_succ (c : OptionContract) (pt : List (List ℝ)) (k : ℕ) :
    backLevel c pt (k + 1) =
      backStep c (pt.getD (pt.length - 1 - (k + 1)) []) (backLevel c pt k) :=
  rfl

lemma backward_length (c : OptionContract) (pt : List (List ℝ)) :
    (backward c pt).length = pt.length := by
  simp [backward]

lemma backward_getD (c : OptionContract) (pt : List (List ℝ)) (i : ℕ)
    (h : i < pt.length) :
    (backward c pt).getD i [] = backLevel c pt (pt.length - 1 - i) :=
  range_map_getD _ _ _ _ h

lemma backward_getD_last (c : OptionContract) (pt : List (List ℝ))
    (h : 0 < pt.length) :
    (backward c pt).getD (pt.length - 1) [] =
      (pt.getD (pt.length - 1) []).map (payoff c) := by
  rw [backward_getD c pt _ (by omega)]
  have h0 : pt.length - 1 - (pt.length - 1) = 0 := by omega
  rw [h0]
  rfl

lemma backward_getD_step (c : OptionContract) (pt : List (List ℝ)) (i : ℕ)
    (h : i + 1 < pt.length) :
    (backward c pt).getD i [] =
      backStep c (pt.getD i []) ((backward c pt).getD (i + 1) []) := by
  rw [backward_getD c pt i (by omega), backward_getD c pt (i + 1) h]
  have h1 : pt.length - 1 - i = (pt.length - 1 - (i + 1)) + 1 := by omega
  rw [h1, backLevel_succ]
  have h2 : pt.length - 1 - ((pt.length - 1 - (i + 1)) + 1) = i := by omega
  rw [h2]

lemma backStep_getD (c : OptionContract) (prices next_level : List ℝ) (j : ℕ)
    (h : j < prices.length) :
    (backStep c prices next_level).getD j 0 =
      americanPayoff c (prices.getD j 0) (next_level.getD (2 * j) 0)
        (next_level.getD (2 * j + 1) 0) :=
  range_map_getD _ _ _ _ h

/-! Claim theorems. -/

/-- C2 (amended): the per-step lattice factors use the time increment
`h = 1 / steps` — the lattice engine takes no expiry parameter, so the spec's
formulas hold exactly with `expiryYears = 1`: the compound factor, the
uncertainty factor and the backward-induction discount factor all equal the
spec-modelled factors evaluated at `expiryYears = 1`. -/
theorem lattice_factors_unit_expiry (c : OptionContract) :
    compound c = compoundSpec c.interest c.dividend_yield 1 c.steps ∧
    uncertainty c = uncertaintySpec c.volatility 1 c.steps ∧
    ∀ s up down : ℝ, americanPayoff c s up down =
      max (discountSpec c.interest 1 c.steps *
          (((compound c - compound c / uncertainty c) /
              (compound c * uncertainty c - compound c / uncertainty c)) * up +
            (1 - (compound c - compound c / uncertainty c) /
                (compound c * uncertainty c - compound c / uncertainty c)) *
              down))
        (payoff c s) :=
  ⟨rfl, rfl, fun _ _ _ => rfl⟩

/-- Concrete engine refuting the spec's `h = expiryYears / steps` reading:
`interest = 1`, `dividend_yield = 0`, one step. -/
noncomputable def c2cex : OptionContract :=
  { option_type := OptionType.CALL
    current_stock_price := 20
    strike_price := 21
    interest := 1
    volatility := 35 / 100
    dividend_yield := 0
    steps := 1 }

/-- C2 (counterexample): with `expiryYears = 1/2` (the expiry of the spec's
own concrete scenario), the source's compound factor does not equal the
spec's `exp((riskFreeRate - dividendYield) * (expiryYears / steps))` — the
source uses `1 / steps`, with no expiry parameter at all. -/
theorem lattice_factor_ignores_expiry :
    compound c2cex ≠
      compoundSpec c2cex.interest c2cex.dividend_yield (1 / 2) c2cex.steps := by
  simp only [compound, compoundSpec, c2cex, ne_eq, Real.exp_eq_exp]
  norm_num

/-- C7: the intrinsic payoff is a total function on the two kinds, equal to
`max(0, S - K)` for a call and `max(0, K - S)` for a put; in particular a call
pays exactly 0 at `S = K` and exactly 1 at `S = K + 1`. -/
theorem payoff_call_put_total (c : OptionContract) (s : ℝ) (h0 : 0 ≤ s) :
    (c.option_type = OptionType.CALL →
      payoff c s = max 0 (s - c.strike_price)) ∧
    (c.option_type = OptionType.PUT →
      payoff c s = max 0 (c.strike_price - s)) ∧
    (c.option_type = OptionType.CALL →
      payoff c c.strike_price = 0 ∧ payoff c (c.strike_price + 1) = 1) := by
  refine ⟨fun h => ?_, fun h => ?_, fun h => ⟨?_, ?_⟩⟩
  · simp [payoff, h]
  · simp [payoff, h]
  · simp [payoff, h]
  · norm_num [payoff, h]

/-- C7 (witness): the boundary values at the test contract (a call struck at
21): payoff 0 at the strike and payoff 1 one unit above it. -/
theorem payoff_call_put_total_witness :
    payoff testContract testContract.strike_price = 0 ∧
    payoff testContract (testContract.strike_price + 1) = 1 :=
  (payoff_call_put_total testContract 120 (by norm_num)).2.2 rfl

/-- C8 (code evaluated at the failing input): the constructor embedding
returns normally on invalid parameters — negative spot, negative volatility
and `steps = 0` are stored untouched, no error is raised at construction
time. -/
theorem american_init_accepts_invalid :
    (mkAmericanOption OptionType.CALL (-1) 100 (5 / 100) (-(2 / 10)) 0
        0).current_stock_price = -1 ∧
    (mkAmericanOption OptionType.CALL (-1) 100 (5 / 100) (-(2 / 10)) 0
        0).volatility = -(2 / 10) ∧
    (mkAmericanOption OptionType.CALL (-1) 100 (5 / 100) (-(2 / 10)) 0
        0).steps = 0 :=
  ⟨rfl, rfl, rfl⟩

/-- C9 (code evaluated at the failing input): for an option kind outside the
enumeration (Python `None`, modelled by `Option.none`), `_payoff` falls off
the `if`/`elif` chain and silently returns no value (Python `None`), rather
than failing loudly. -/
theorem payoff_falls_through_silently : payoffDyn none 100 120 = none := rfl

/-- C4: the forward price lattice has exactly `steps` levels, level 0 is the
single-element list holding the spot price, level `i` has `2 ^ i` nodes (no
recombining of equal-valued paths), and the children of node `j` of level `i`
sit at positions `2 * j` (the up-move child, appended first) and `2 * j + 1`
(the down-move child, appended second) of level `i + 1`. -/
theorem forward_lattice_structure (c : OptionContract) (hs : 1 ≤ c.steps) :
    (forward c).length = c.steps ∧
    (forward c).getD 0 [] = [c.current_stock_price] ∧
    (∀ i, i < c.steps → ((forward c).getD i []).length = 2 ^ i) ∧
    (∀ i j, i < c.steps - 1 → j < 2 ^ i →
      ((forward c).getD (i + 1) []).getD (2 * j) 0 =
          ((forward c).getD i []).getD j 0 * compound c * uncertainty c ∧
        ((forward c).getD (i + 1) []).getD (2 * j + 1) 0 =
          ((forward c).getD i []).getD j 0 * compound c / uncertainty c) := by
  have hn : numLevels c = c.steps := numLevels_eq c hs
  refine ⟨by rw [forward_length, hn], ?_, fun i hi => ?_, fun i j hi hj => ?_⟩
  · rw [forward_getD c 0 (by omega)]
    exact priceLevel_zero c
  · rw [forward_getD c i (by omega)]
    exact priceLevel_length c i
  · have hi1 : i + 1 < numLevels c := by omega
    have hi0 : i < numLevels c := by omega
    rw [forward_getD c (i + 1) hi1, forward_getD c i hi0, priceLevel_succ]
    have hjl : j < (priceLevel c i).length := by
      rw [priceLevel_length]
      exact hj
    exact ⟨nextLevel_getD_up c _ j hjl, nextLevel_getD_down c _ j hjl⟩

/-- C4 (witness): the forward lattice of the test contract has exactly
`steps` levels. -/
theorem forward_lattice_structure_witness :
    (forward testContract).length = testContract.steps :=
  (forward_lattice_structure testContract (by norm_num [testContract])).1

/-- C5: delta is the first-branch difference quotient — the code's denominator
`spot * compound * uncertainty - spot * compound / uncertainty` equals the
difference of the two level-1 price-lattice nodes, so delta equals
`(payoffLattice[1][0] - payoffLattice[1][1]) /
(priceLattice[1][0] - priceLattice[1][1])`. -/
theorem delta_first_branch (c : OptionContract) (hs : 2 ≤ c.steps)
    (hv : 0 < c.volatility) :
    delta c =
      (((backward c (forward c)).getD 1 []).getD 0 0 -
          ((backward c (forward c)).getD 1 []).getD 1 0) /
        (((forward c).getD 1 []).getD 0 0 -
          ((forward c).getD 1 []).getD 1 0) ∧
    c.current_stock_price * compound c * uncertainty c -
        c.current_stock_price * compound c / uncertainty c =
      ((forward c).getD 1 []).getD 0 0 -
        ((forward c).getD 1 []).getD 1 0 := by
  have hps : priceLevel c 1 = nextLevel c (priceLevel c 0) :=
    priceLevel_succ c 0
  have h1 : (forward c).getD 1 [] =
      [c.current_stock_price * compound c * uncertainty c,
       c.current_stock_price * compound c / uncertainty c] := by
    rw [forward_getD c 1 (by unfold numLevels; omega), hps, priceLevel_zero,
      nextLevel_cons, nextLevel_nil]
  constructor
  · rw [h1]
    rfl
  · rw [h1]
    rfl

/-- C5 (witness): at the test contract, the delta denominator is exactly the
level-1 price-lattice difference. -/
theorem delta_first_branch_witness :
    testContract.current_stock_price * compound testContract *
          uncertainty testContract -
        testContract.current_stock_price * compound testContract /
          uncertainty testContract =
      ((forward testContract).getD 1 []).getD 0 0 -
        ((forward testContract).getD 1 []).getD 1 0 :=
  (delta_first_branch testContract (by norm_num [testContract])
    (by norm_num [testContract])).2

/-- C6: vega prices a fresh, independent engine whose only changed parameter
is `volatility * (1 + delta_sigma)` and divides the price difference by the
bump fraction `delta_sigma` itself (not by `volatility * delta_sigma`). -/
theorem vega_bumped_engine (c : OptionContract) (delta_sigma : ℝ)
    (hv : 0 < c.volatility) (hds : delta_sigma ≠ 0) :
    ∃ b : OptionContract,
      b.option_type = c.option_type ∧
      b.current_stock_price = c.current_stock_price ∧
      b.strike_price = c.strike_price ∧
      b.interest = c.interest ∧
      b.dividend_yield = c.dividend_yield ∧
      b.steps = c.steps ∧
      b.volatility = c.volatility * (1 + delta_sigma) ∧
      vega c delta_sigma = (price b - price c) / delta_sigma :=
  ⟨{ option_type := c.option_type
     current_stock_price := c.current_stock_price
     strike_price := c.strike_price
     interest := c.interest
     volatility := c.volatility * (1 + delta_sigma)
     dividend_yield := c.dividend_yield
     steps := c.steps },
    rfl, rfl, rfl, rfl, rfl, rfl, rfl, rfl⟩

/-- C6 (witness): the bumped engine exists for the test contract with the
default 1% bump. -/
theorem vega_bumped_engine_witness :
    ∃ b : OptionContract,
      b.option_type = testContract.option_type ∧
      b.current_stock_price = testContract.current_stock_price ∧
      b.strike_price = testContract.strike_price ∧
      b.interest = testContract.interest ∧
      b.dividend_yield = testContract.dividend_yield ∧
      b.steps = testContract.steps ∧
      b.volatility = testContract.volatility * (1 + 1 / 100) ∧
      vega testContract (1 / 100) =
        (price b - price testContract) / (1 / 100) :=
  vega_bumped_engine testContract (1 / 100) (by norm_num [testContract])
    (by norm_num)

/-- C1: `price()` returns `payoffLattice[0][0]`; the last payoff level holds
the intrinsic payoff of every terminal price of the price lattice; and every
node `j` of an earlier level `i` holds `max(holdValue, exerciseValue)` with
`holdValue` the discounted risk-neutral expectation of the two children at
positions `2 * j` and `2 * j + 1` of level `i + 1`,
`p = (compound - d) / (u - d)` for `u = compound * uncertainty` and
`d = compound / uncertainty`, and `exerciseValue` the intrinsic payoff at
`priceLattice[i][j]`. -/
theorem american_price_backward_induction (c : OptionContract)
    (hs : 1 ≤ c.steps) (hv : 0 < c.volatility) :
    price c = ((backward c (forward c)).getD 0 []).getD 0 0 ∧
    (∀ j, j < ((forward c).getD (c.steps - 1) []).length →
      ((backward c (forward c)).getD (c.steps - 1) []).getD j 0 =
        payoff c (((forward c).getD (c.steps - 1) []).getD j 0)) ∧
    (∀ i j, i < c.steps - 1 → j < ((forward c).getD i []).length →
      ((backward c (forward c)).getD i []).getD j 0 =
        max (Real.exp (-c.interest * (1 / (c.steps : ℝ))) *
            (((compound c - compound c / uncertainty c) /
                (compound c * uncertainty c - compound c / uncertainty c)) *
                ((backward c (forward c)).getD (i + 1) []).getD (2 * j) 0 +
              (1 - (compound c - compound c / uncertainty c) /
                  (compound c * uncertainty c - compound c / uncertainty c)) *
                ((backward c (forward c)).getD (i + 1) []).getD
                  (2 * j + 1) 0))
          (payoff c (((forward c).getD i []).getD j 0))) := by
  have hn : numLevels c = c.steps := numLevels_eq c hs
  have hlen : (forward c).length = c.steps := by rw [forward_length, hn]
  refine ⟨rfl, fun j hj => ?_, fun i j hi hj => ?_⟩
  · have hend : c.steps - 1 = (forward c).length - 1 := by omega
    rw [hend] at hj ⊢
    rw [backward_getD_last c (forward c) (by omega)]
    exact map_getD (payoff c) _ j hj 0 0
  · have hstep : i + 1 < (forward c).length := by omega
    rw [backward_getD_step c (forward c) i hstep, backStep_getD c _ _ j hj]
    rfl

/-- C1 (witness): at the test contract, the price is the root of the
backward-inducted payoff lattice. -/
theorem american_price_backward_induction_witness :
    price testContract =
      ((backward testContract (forward testContract)).getD 0 []).getD 0 0 :=
  (american_price_backward_induction testContract
    (by norm_num [testContract]) (by norm_num [testContract])).1

lemma payoff_nonneg (c : OptionContract) (s : ℝ) : 0 ≤ payoff c s := by
  cases hct : c.option_type <;> simp only [payoff, hct] <;>
    exact le_max_left _ _

lemma americanPayoff_nonneg (c : OptionContract) (s up down : ℝ) :
    0 ≤ americanPayoff c s up down := by
  unfold americanPayoff
  exact le_trans (payoff_nonneg c s) (le_max_right _ _)

lemma backLevel_nonneg (c : OptionContract) (pt : List (List ℝ)) (k : ℕ) :
    ∀ x ∈ backLevel c pt k, 0 ≤ x := by
  induction k with
  | zero =>
      intro x hx
      have hx2 : x ∈ (pt.getD (pt.length - 1) []).map (payoff c) := hx
      obtain ⟨a, _, rfl⟩ := List.mem_map.mp hx2
      exact payoff_nonneg c a
  | succ k ih =>
      intro x hx
      have hx2 : x ∈ backStep c (pt.getD (pt.length - 1 - (k + 1)) [])
          (backLevel c pt k) := hx
      obtain ⟨j, _, rfl⟩ := List.mem_map.mp hx2
      exact americanPayoff_nonneg c _ _ _

/-- C10: every entry of the payoff lattice is non-negative — the leaves
because the intrinsic payoff is a max with 0, the inner nodes because each is
at least its exercise value — and therefore the option price is
non-negative. -/
theorem payoff_lattice_nonneg (c : OptionContract) (hs : 1 ≤ c.steps)
    (hv : 0 < c.volatility) :
    (∀ level ∈ backward c (forward c), ∀ x ∈ level, 0 ≤ x) ∧
    0 ≤ price c := by
  have hlev : ∀ level ∈ backward c (forward c), ∀ x ∈ level, 0 ≤ x := by
    intro level hlevel
    have h2 : level ∈ (List.range (forward c).length).map
        (fun i => backLevel c (forward c) ((forward c).length - 1 - i)) :=
      hlevel
    obtain ⟨i, _, rfl⟩ := List.mem_map.mp h2
    exact backLevel_nonneg c (forward c) _
  refine ⟨hlev, ?_⟩
  have hl0 : 0 < (backward c (forward c)).length := by
    rw [backward_length, forward_length]
    unfold numLevels
    omega
  apply getD_nonneg
  intro x hx
  have hmem : (backward c (forward c)).getD 0 [] ∈ backward c (forward c) := by
    rw [List.getD_eq_getElem _ _ hl0]
    exact List.getElem_mem hl0
  exact hlev _ hmem x hx

/-- C10 (witness): the test contract's price is non-negative. -/
theorem payoff_lattice_nonneg_witness : 0 ≤ price testContract :=
  (payoff_lattice_nonneg testContract (by norm_num [testContract])
    (by norm_num [testContract])).2

/-- Concrete European engine used by the Monte Carlo witness. -/
noncomputable def testEuro : EuropeanOption :=
  { toOptionContract := testContract
    time_period := 1 / 2 }

/-- C3: the Monte Carlo price is the arithmetic mean, over the `paths`
iterations, of the intrinsic payoff applied to the discounted terminal price
`exp(-riskFreeRate * T) * (spot * exp((riskFreeRate - dividendYield -
0.5 * volatility ^ 2) * T + eps_i * volatility * sqrt(T)))` — the payoff of
the discounted price, not the discounted payoff. -/
theorem european_price_monte_carlo_mean (e : EuropeanOption) (eps : ℕ → ℝ)
    (hp : 1 ≤ e.steps) :
    europeanPrice e eps =
      (∑ i ∈ Finset.range e.steps,
          payoff e.toOptionContract
            (Real.exp (-e.interest * e.time_period) *
              (e.current_stock_price *
                Real.exp ((e.interest - e.dividend_yield -
                      1 / 2 * e.volatility ^ 2) * e.time_period +
                    eps i * e.volatility * Real.sqrt e.time_period)))) /
        (e.steps : ℝ) := by
  unfold europeanPrice
  rw [list_range_map_sum]
  congr 1
  refine Finset.sum_congr rfl fun i _ => ?_
  refine congrArg (payoff e.toOptionContract) ?_
  unfold discount calculateStockPrice
  ring

/-- C3 (witness): the Monte Carlo mean formula instantiated at the test
European engine with all draws equal to zero. -/
theorem european_price_monte_carlo_mean_witness :
    europeanPrice testEuro (fun _ => 0) =
      (∑ i ∈ Finset.range testEuro.steps,
          payoff testEuro.toOptionContract
            (Real.exp (-testEuro.interest * testEuro.time_period) *
              (testEuro.current_stock_price *
                Real.exp ((testEuro.interest - testEuro.dividend_yield -
                      1 / 2 * testEuro.volatility ^ 2) *
                      testEuro.time_period +
                    0 * testEuro.volatility *
                      Real.sqrt testEuro.time_period)))) /
        (testEuro.steps : ℝ) :=
  european_price_monte_carlo_mean testEuro (fun _ => 0)
    (by norm_num [testEuro, testContract])

end OptionLib
